import Mathlib

/-!
# Verification of `tools/ghcr_prune.py`

A shallow embedding of the retention decision logic of `container_prune`
(`src/tools/ghcr_prune.py`), together with proofs of the specified
properties.

Modelling choices:
* Timestamps (`created_at`, the cutoff `del_before`, and the protection
  window `tag_window`) are integers (an abstract linear time scale); the
  Python code only compares them and subtracts a duration, which `Int`
  supports exactly.
* A `Version` carries the fields the code reads: `id`, `name`,
  `created_at` and the tag list (`metadata.container.tags` in the JSON).
* Python's `sorted(versions, key=lambda k: k["id"], reverse=True)` is a
  stable sort by descending id; it is embedded as `List.mergeSort` (also
  stable) with the Boolean relation `byIdDesc`.
* The imperative delete/print loop is embedded as a pure recursion
  producing the printed lines, the trace of issued HTTP DELETE calls, and
  a flag telling whether the run completed (a failed delete raises in
  Python, aborting everything that follows); the registry's responses to
  deletions are an oracle `deleteOk : String → Nat → Bool`.
-/

/-- One stored package version, as read by `container_prune` from the
versions listing. -/
structure Version where
  id : Nat
  name : String
  created_at : Int
  tags : List String
deriving DecidableEq

/-- Creation instants of the tagged versions
(`tagged_created` in the source, lines 96-100): collect `created_at` of
every version whose tag list is non-empty, in listing order. -/
def tagged_created (versions : List Version) : List Int :=
  (versions.filter (fun v => !v.tags.isEmpty)).map (fun v => v.created_at)

/-- The inner protection test of the loop (source lines 111-113):
some tagged creation instant `t` satisfies
`t - tag_window < created <= t`. -/
def in_tag_window (tagged : List Int) (tag_window created : Int) : Bool :=
  tagged.any (fun t => decide (t - tag_window < created) && decide (created ≤ t))

/-- The per-version deletion condition of the loop (source lines 107-113):
strictly older than `del_before`, untagged, and not in any tagged
version's protection window. -/
def eligible (tagged : List Int) (del_before tag_window : Int) (v : Version) : Bool :=
  decide (v.created_at < del_before) && v.tags.isEmpty &&
    !(in_tag_window tagged tag_window v.created_at)

/-- The iteration order of the loop: Python's
`sorted(versions, key=lambda k: k["id"], reverse=True)` — stable,
descending ids. -/
def byIdDesc (a b : Version) : Bool := decide (b.id ≤ a.id)

/-- The retention engine: the versions the loop of `container_prune`
(source lines 96-113) acts on, in the order it visits them. -/
def select_for_deletion (versions : List Version) (del_before tag_window : Int) :
    List Version :=
  (versions.mergeSort byIdDesc).filter
    (eligible (tagged_created versions) del_before tag_window)

/-- One HTTP DELETE issued to the registry (source lines 116-118). -/
structure DeleteCall where
  container : String
  version_id : Nat
deriving DecidableEq

/-- Observable outcome of (part of) a run: printed lines, the trace of
DELETE calls in the order issued, and whether the run completed without a
raised error. -/
structure RunResult where
  lines : List String
  calls : List DeleteCall
  ok : Bool
deriving DecidableEq

/-- `del_header` (source line 104). -/
def del_header (dry_run : Bool) : String :=
  if dry_run then "Would delete" else "Deleted"

/-- The body of the candidate loop (source lines 105-123), over the
already-selected candidates in visit order. `del_cnt` mirrors the Python
counter: the sub-header line is printed only before the first candidate.
In live mode the DELETE is issued before printing; a failed DELETE
(`deleteOk` returns `false`, i.e. `raise_for_status` raises) aborts
immediately. -/
def prune_loop (deleteOk : String → Nat → Bool) (container : String)
    (dry_run : Bool) : List Version → Nat → RunResult
  | [], _ => ⟨[], [], true⟩
  | v :: rest, del_cnt =>
    let hdr : List String :=
      if del_cnt = 0 then ["  " ++ del_header dry_run ++ ":"] else []
    if dry_run then
      let r := prune_loop deleteOk container dry_run rest (del_cnt + 1)
      ⟨hdr ++ ("  " ++ v.name) :: r.lines, r.calls, r.ok⟩
    else if deleteOk container v.id then
      let r := prune_loop deleteOk container dry_run rest (del_cnt + 1)
      ⟨hdr ++ ("  " ++ v.name) :: r.lines, ⟨container, v.id⟩ :: r.calls, r.ok⟩
    else
      ⟨[], [⟨container, v.id⟩], false⟩

/-- Processing of one container (source lines 85-123): header line, then
the candidate loop on `select_for_deletion`. -/
def container_step (deleteOk : String → Nat → Bool) (dry_run : Bool)
    (del_before tag_window : Int) (container : String)
    (versions : List Version) : RunResult :=
  let r := prune_loop deleteOk container dry_run
    (select_for_deletion versions del_before tag_window) 0
  ⟨("Pruning images of " ++ container ++ "...") :: r.lines, r.calls, r.ok⟩

/-- The per-container loop of `container_prune` (source line 85): each
container's versions snapshot is processed in turn; a raised error in one
container aborts all subsequent containers. -/
def container_prune (deleteOk : String → Nat → Bool) (dry_run : Bool)
    (del_before tag_window : Int) : List (String × List Version) → RunResult
  | [] => ⟨[], [], true⟩
  | (c, vs) :: rest =>
    let r := container_step deleteOk dry_run del_before tag_window c vs
    if r.ok then
      let r2 := container_prune deleteOk dry_run del_before tag_window rest
      ⟨r.lines ++ r2.lines, r.calls ++ r2.calls, r2.ok⟩
    else
      ⟨r.lines, r.calls, false⟩

/-- String order used by Python's `sorted` on the package names. -/
def strLe (a b : String) : Bool := decide (a ≤ b)

/-- The `all` sentinel handling (source lines 77-82): when the argument
list is exactly `["all"]`, replace it by the sorted names of all owned
container packages; otherwise the argument list is used as is. -/
def expand_containers (pkg_names : List String) (containers : List String) :
    List String :=
  if containers = ["all"] then pkg_names.mergeSort strLe else containers

/-- The DELETE calls a fully successful live run issues: one per
candidate, per container, in report order. -/
def expected_calls (del_before tag_window : Int) :
    List (String × List Version) → List DeleteCall
  | [] => []
  | (c, vs) :: rest =>
    (select_for_deletion vs del_before tag_window).map
        (fun v => ⟨c, v.id⟩) ++ expected_calls del_before tag_window rest

/-- The report lines of one container's candidate list in dry-run mode. -/
def dry_lines (cands : List Version) : List String :=
  if cands.isEmpty then []
  else ("  " ++ "Would delete" ++ ":") :: cands.map (fun v => "  " ++ v.name)

unseal List.merge List.mergeSort in
example :
    select_for_deletion
      [⟨1, "u", 0, []⟩, ⟨2, "t", 10, ["latest"]⟩] 100 15 = [] := by decide

unseal List.merge List.mergeSort in
example :
    select_for_deletion
      [⟨1, "u", -100, []⟩, ⟨2, "t", 10, ["latest"]⟩] 100 15 =
      [⟨1, "u", -100, []⟩] := by decide

unseal List.merge List.mergeSort in
example :
    select_for_deletion
      [⟨1, "a", 0, []⟩, ⟨3, "c", 2, []⟩, ⟨2, "b", 1, []⟩] 100 15 =
      [⟨3, "c", 2, []⟩, ⟨2, "b", 1, []⟩, ⟨1, "a", 0, []⟩] := by decide

/-! ## Shared lemmas -/

theorem byIdDesc_trans : ∀ a b c : Version, byIdDesc a b → byIdDesc b c → byIdDesc a c := by
  intro a b c hab hbc
  simp only [byIdDesc, decide_eq_true_eq] at *
  omega

theorem byIdDesc_total : ∀ a b : Version, byIdDesc a b || byIdDesc b a := by
  intro a b
  simp only [byIdDesc, Bool.or_eq_true, decide_eq_true_eq]
  omega

theorem mem_select_for_deletion {v : Version} {vs : List Version} {c w : Int} :
    v ∈ select_for_deletion vs c w ↔
      v ∈ vs ∧ eligible (tagged_created vs) c w v = true := by
  simp [select_for_deletion, List.mem_filter, List.mem_mergeSort]

/-! ## C1 -/

/-- C1: a version `v` is never selected if some tagged version's creation
instant `t` satisfies `t - tag_window < v.created_at ≤ t` (strict lower
bound, inclusive upper bound), whatever the cutoff, even if `v` is
untagged and older than the cutoff; the protection is a disjunction over
all tagged creation instants. -/
theorem select_never_in_protection_window
    (versions : List Version) (cutoff tag_window : Int) (v : Version) (t : Int)
    (ht : t ∈ tagged_created versions)
    (h1 : t - tag_window < v.created_at) (h2 : v.created_at ≤ t) :
    v ∉ select_for_deletion versions cutoff tag_window := by
  intro hv
  rw [mem_select_for_deletion] at hv
  have helig := hv.2
  simp only [eligible, Bool.and_eq_true, Bool.not_eq_true'] at helig
  have hwin := helig.2
  simp only [in_tag_window, List.any_eq_false, Bool.and_eq_true,
    decide_eq_true_eq, not_and] at hwin
  exact absurd h2 (hwin t ht h1)

/-- Witness for C1: a 95-instant untagged version is protected by a
tagged version created at instant 100 (window 15), so it is not selected
despite being far older than the cutoff 200. -/
theorem select_never_in_protection_window_witness :
    (⟨1, "u", 95, []⟩ : Version) ∉
      select_for_deletion [⟨1, "u", 95, []⟩, ⟨2, "t", 100, ["latest"]⟩] 200 15 :=
  select_never_in_protection_window
    [⟨1, "u", 95, []⟩, ⟨2, "t", 100, ["latest"]⟩] 200 15 ⟨1, "u", 95, []⟩ 100
    (by decide) (by decide) (by decide)

/-! ## C2 -/

/-- C2: every selected version has an empty tag set; a version with at
least one tag is never a deletion candidate, regardless of its age. -/
theorem select_only_untagged (vs : List Version) (c w : Int) (v : Version)
    (hv : v ∈ select_for_deletion vs c w) : v.tags = [] := by
  rw [mem_select_for_deletion] at hv
  have helig := hv.2
  simp only [eligible, Bool.and_eq_true] at helig
  exact List.isEmpty_iff.mp helig.1.2

unseal List.merge List.mergeSort in
/-- Witness for C2: evaluated on a singleton list whose version is
selected. -/
theorem select_only_untagged_witness :
    (⟨1, "u", 0, []⟩ : Version).tags = [] :=
  select_only_untagged [⟨1, "u", 0, []⟩] 10 15 ⟨1, "u", 0, []⟩ (by decide)

/-! ## C3 -/

/-- C3: every selected version was created strictly before the cutoff; a
version created at or after the cutoff is never selected. -/
theorem select_older_than_cutoff (vs : List Version) (c w : Int) (v : Version)
    (hv : v ∈ select_for_deletion vs c w) : v.created_at < c := by
  rw [mem_select_for_deletion] at hv
  have helig := hv.2
  simp only [eligible, Bool.and_eq_true, decide_eq_true_eq] at helig
  exact helig.1.1

unseal List.merge List.mergeSort in
/-- Witness for C3: evaluated on a singleton list whose version is
selected. -/
theorem select_older_than_cutoff_witness :
    (⟨1, "u", 0, []⟩ : Version).created_at < 10 :=
  select_older_than_cutoff [⟨1, "u", 0, []⟩] 10 15 ⟨1, "u", 0, []⟩ (by decide)

/-! ## C8 -/

/-- C8: the selection is a pure, deterministic, total function of the
snapshot: two runs on the same version list, cutoff and window give the
same list (in Lean the engine is a total function, so it can raise no
error on any input), and it only ever returns versions taken from the
snapshot. -/
theorem select_deterministic (vs : List Version) (c w : Int) :
    select_for_deletion vs c w = select_for_deletion vs c w ∧
    ∀ v, v ∈ select_for_deletion vs c w → v ∈ vs := by
  refine ⟨rfl, fun v hv => ?_⟩
  exact (mem_select_for_deletion.mp hv).1

unseal List.merge List.mergeSort in
/-- Witness for C8: applied on a concrete snapshot. -/
theorem select_deterministic_witness :
    (⟨1, "u", 0, []⟩ : Version) ∈ [(⟨1, "u", 0, []⟩ : Version)] :=
  (select_deterministic [⟨1, "u", 0, []⟩] 10 15).2 ⟨1, "u", 0, []⟩ (by decide)

/-! ## C9 -/

/-- C9: the empty version list selects nothing (and no error is raised:
the engine is a total function), and a list in which every version
carries at least one tag also selects nothing. -/
theorem select_empty_and_all_tagged (c w : Int) (vs : List Version)
    (h : ∀ v ∈ vs, v.tags ≠ []) :
    select_for_deletion [] c w = [] ∧ select_for_deletion vs c w = [] := by
  constructor
  · simp [select_for_deletion]
  · simp only [select_for_deletion, List.filter_eq_nil_iff, List.mem_mergeSort]
    intro v hv
    simp only [eligible, Bool.and_eq_true, Bool.not_eq_true', not_and]
    intro h1 _
    exact absurd (List.isEmpty_iff.mp h1.2) (h v hv)

/-- Witness for C9: a list whose only version is tagged selects
nothing. -/
theorem select_empty_and_all_tagged_witness :
    select_for_deletion [⟨1, "t", 0, ["latest"]⟩] 10 15 = [] :=
  (select_empty_and_all_tagged 10 15 [⟨1, "t", 0, ["latest"]⟩] (by decide)).2

/-! ## C5 -/

/-- C5: the `all` sentinel mode (enumerating every owned container
package) is entered exactly when the positional argument list is the
single token `"all"`: then the result is the sorted package names; any
other argument list — in particular one mixing `"all"` with further
container names — is taken literally and unchanged. -/
theorem all_sentinel_exact (pkg_names : List String) (containers : List String)
    (h : containers ≠ ["all"]) :
    expand_containers pkg_names ["all"] = pkg_names.mergeSort strLe ∧
    expand_containers pkg_names containers = containers := by
  constructor
  · simp [expand_containers]
  · simp [expand_containers, h]

/-- Witness for C5: mixing `"all"` with another name does not enumerate. -/
theorem all_sentinel_exact_witness :
    expand_containers ["b", "a"] ["all", "x"] = ["all", "x"] :=
  (all_sentinel_exact ["b", "a"] ["all", "x"] (by decide)).2

/-! ## C10 -/

theorem strLe_trans : ∀ a b c : String, strLe a b → strLe b c → strLe a c := by
  intro a b c hab hbc
  simp only [strLe, decide_eq_true_eq] at *
  exact le_trans hab hbc

theorem strLe_total : ∀ a b : String, strLe a b || strLe b a := by
  intro a b
  simp only [strLe, Bool.or_eq_true, decide_eq_true_eq]
  exact le_total a b

/-- C10: with the `all` sentinel, the containers processed are exactly
the owned package names, in ascending lexicographic order, independently
of the order the registry listing returned them in. -/
theorem all_enumeration_sorted (pkgs : List String) :
    List.Pairwise (fun a b => a ≤ b) (expand_containers pkgs ["all"]) ∧
    List.Perm (expand_containers pkgs ["all"]) pkgs ∧
    ∀ pkgs2, List.Perm pkgs2 pkgs →
      expand_containers pkgs2 ["all"] = expand_containers pkgs ["all"] := by
  have hexp : ∀ l : List String, expand_containers l ["all"] = l.mergeSort strLe := by
    intro l
    simp [expand_containers]
  have hsorted : ∀ l : List String,
      List.Pairwise (fun a b => strLe a b = true) (l.mergeSort strLe) :=
    fun l => List.sorted_mergeSort strLe_trans strLe_total l
  refine ⟨?_, ?_, ?_⟩
  · rw [hexp]
    exact (hsorted pkgs).imp (fun h => by simpa [strLe] using h)
  · rw [hexp]
    exact List.mergeSort_perm pkgs strLe
  · intro pkgs2 hp
    rw [hexp, hexp]
    refine List.Perm.eq_of_sorted ?_ (hsorted pkgs2) (hsorted pkgs) ?_
    · intro a b _ _ h1 h2
      simp only [strLe, decide_eq_true_eq] at h1 h2
      exact le_antisymm h1 h2
    · exact (List.mergeSort_perm pkgs2 strLe).trans
        (hp.trans (List.mergeSort_perm pkgs strLe).symm)

/-- Witness for C10: two listing orders of the same names give the same
sorted enumeration. -/
theorem all_enumeration_sorted_witness :
    expand_containers ["b", "a"] ["all"] = expand_containers ["a", "b"] ["all"] :=
  (all_enumeration_sorted ["a", "b"]).2.2 ["b", "a"] (by decide)

/-! ## C4 -/

/-- C4: for a snapshot with distinct ids (the registry guarantee), the
selection equals the eligible versions as they appear in the input,
sorted by id descending; the result is ordered by id descending, and
membership is order-independent: a version is selected iff it is in the
input and satisfies the eligibility condition. -/
theorem select_order_by_id_desc (vs : List Version) (c w : Int)
    (hnd : (vs.map Version.id).Nodup) :
    select_for_deletion vs c w =
      (vs.filter (eligible (tagged_created vs) c w)).mergeSort byIdDesc ∧
    List.Pairwise (fun a b => b.id ≤ a.id) (select_for_deletion vs c w) ∧
    ∀ v, v ∈ select_for_deletion vs c w ↔
      v ∈ vs ∧ eligible (tagged_created vs) c w v = true := by
  have hsorted1 : List.Pairwise (fun a b => byIdDesc a b = true)
      (select_for_deletion vs c w) :=
    (List.sorted_mergeSort byIdDesc_trans byIdDesc_total vs).sublist
      (List.filter_sublist _)
  refine ⟨?_, ?_, fun v => mem_select_for_deletion⟩
  · have hsorted2 : List.Pairwise (fun a b => byIdDesc a b = true)
        ((vs.filter (eligible (tagged_created vs) c w)).mergeSort byIdDesc) :=
      List.sorted_mergeSort byIdDesc_trans byIdDesc_total _
    refine List.Perm.eq_of_sorted ?_ hsorted1 hsorted2 ?_
    · intro a b ha hb h1 h2
      have ha' : a ∈ vs := (mem_select_for_deletion.mp ha).1
      have hb' : b ∈ vs :=
        (List.mem_filter.mp (List.mem_mergeSort.mp hb)).1
      have hid : a.id = b.id := by
        simp only [byIdDesc, decide_eq_true_eq] at h1 h2
        omega
      exact List.inj_on_of_nodup_map hnd ha' hb' hid
    · exact (List.Perm.filter _ (List.mergeSort_perm vs byIdDesc)).trans
        (List.mergeSort_perm _ byIdDesc).symm
  · exact hsorted1.imp (fun h => by simpa [byIdDesc] using h)

unseal List.merge List.mergeSort in
/-- Witness for C4: evaluated on a concrete snapshot with distinct ids,
given in neither ascending nor descending order. -/
theorem select_order_by_id_desc_witness :
    select_for_deletion [⟨1, "a", 0, []⟩, ⟨3, "c", 2, []⟩, ⟨2, "b", 1, []⟩] 100 15 =
      (([⟨1, "a", 0, []⟩, ⟨3, "c", 2, []⟩, ⟨2, "b", 1, []⟩] : List Version).filter
        (eligible
          (tagged_created [⟨1, "a", 0, []⟩, ⟨3, "c", 2, []⟩, ⟨2, "b", 1, []⟩])
          100 15)).mergeSort byIdDesc :=
  (select_order_by_id_desc [⟨1, "a", 0, []⟩, ⟨3, "c", 2, []⟩, ⟨2, "b", 1, []⟩]
    100 15 (by decide)).1

/-! ## C6 -/

theorem prune_loop_all_ok (deleteOk : String → Nat → Bool)
    (h : ∀ c i, deleteOk c i = true) (cn : String) :
    ∀ (cands : List Version) (cnt : Nat),
      (prune_loop deleteOk cn false cands cnt).calls =
        cands.map (fun v => ⟨cn, v.id⟩) ∧
      (prune_loop deleteOk cn false cands cnt).ok = true
  | [], _ => by simp [prune_loop]
  | v :: rest, cnt => by
    have ih := prune_loop_all_ok deleteOk h cn rest (cnt + 1)
    simp [prune_loop, h, ih.1, ih.2]

theorem container_prune_all_ok (deleteOk : String → Nat → Bool)
    (h : ∀ c i, deleteOk c i = true) (c w : Int) :
    ∀ entries : List (String × List Version),
      (container_prune deleteOk false c w entries).calls =
        expected_calls c w entries ∧
      (container_prune deleteOk false c w entries).ok = true
  | [] => by simp [container_prune, expected_calls]
  | (cn, vs) :: rest => by
    have hstep := prune_loop_all_ok deleteOk h cn (select_for_deletion vs c w) 0
    have ih := container_prune_all_ok deleteOk h c w rest
    simp [container_prune, container_step, expected_calls,
      hstep.1, hstep.2, ih.1, ih.2]

/-- C6: in live mode, when every delete succeeds the registry delete is
invoked exactly once per candidate, in report order (per container, ids
descending, containers in their processing order); a failed delete makes
the loop return immediately: no further delete is attempted for that
container, and a failed container aborts all subsequent containers, the
error propagating without retry. -/
theorem live_deletes_in_order_and_abort (deleteOk : String → Nat → Bool)
    (c w : Int) (entries : List (String × List Version)) :
    ((∀ cn i, deleteOk cn i = true) →
      (container_prune deleteOk false c w entries).calls =
        expected_calls c w entries) ∧
    (∀ (cn : String) (v : Version) (rest : List Version) (cnt : Nat),
      deleteOk cn v.id = false →
      prune_loop deleteOk cn false (v :: rest) cnt =
        ⟨[], [⟨cn, v.id⟩], false⟩) ∧
    (∀ e rest, (container_step deleteOk false c w e.1 e.2).ok = false →
      container_prune deleteOk false c w (e :: rest) =
        ⟨(container_step deleteOk false c w e.1 e.2).lines,
         (container_step deleteOk false c w e.1 e.2).calls, false⟩) := by
  refine ⟨fun h => (container_prune_all_ok deleteOk h c w entries).1, ?_, ?_⟩
  · intro cn v rest cnt hfail
    simp [prune_loop, hfail]
  · intro e rest hfail
    obtain ⟨cn, vs⟩ := e
    simp only [container_prune, hfail, if_false, Bool.false_eq_true]

/-- Witness for C6: a fully successful live run on one container with
one candidate issues exactly the expected delete trace. -/
theorem live_deletes_in_order_and_abort_witness :
    (container_prune (fun _ _ => true) false 100 15
      [("c", [⟨1, "u", 0, []⟩])]).calls =
      expected_calls 100 15 [("c", [⟨1, "u", 0, []⟩])] :=
  (live_deletes_in_order_and_abort (fun _ _ => true) 100 15
    [("c", [⟨1, "u", 0, []⟩])]).1 (fun _ _ => rfl)

/-! ## C7 -/

theorem prune_loop_dry (deleteOk : String → Nat → Bool) (cn : String) :
    ∀ (cands : List Version) (cnt : Nat),
      (prune_loop deleteOk cn true cands cnt).calls = [] ∧
      (prune_loop deleteOk cn true cands cnt).ok = true ∧
      (prune_loop deleteOk cn true cands (cnt + 1)).lines =
        cands.map (fun v => "  " ++ v.name)
  | [], _ => by simp [prune_loop]
  | v :: rest, cnt => by
    have ih := prune_loop_dry deleteOk cn rest (cnt + 1)
    simp [prune_loop, ih.1, ih.2.1, ih.2.2]

theorem prune_loop_dry_lines_zero (deleteOk : String → Nat → Bool)
    (cn : String) (cands : List Version) :
    (prune_loop deleteOk cn true cands 0).lines = dry_lines cands := by
  cases cands with
  | nil => simp [prune_loop, dry_lines]
  | cons v rest =>
    have ih := prune_loop_dry deleteOk cn rest 0
    simp [prune_loop, dry_lines, del_header, ih.2.2]

/-- C7: in dry-run mode no delete call is ever issued to the registry
for any container or candidate, yet each container's report still lists
every candidate, under the sub-header `"  Would delete:"` (instead of
`"  Deleted:"`). -/
theorem dry_run_no_deletes (deleteOk : String → Nat → Bool) (c w : Int)
    (entries : List (String × List Version)) :
    (container_prune deleteOk true c w entries).calls = [] ∧
    ∀ (cn : String) (vs : List Version),
      container_step deleteOk true c w cn vs =
        ⟨("Pruning images of " ++ cn ++ "...") ::
          dry_lines (select_for_deletion vs c w), [], true⟩ := by
  constructor
  · induction entries with
    | nil => simp [container_prune]
    | cons e rest ih =>
      obtain ⟨cn, vs⟩ := e
      have h := prune_loop_dry deleteOk cn (select_for_deletion vs c w) 0
      simp [container_prune, container_step, h.1, h.2.1, ih]
  · intro cn vs
    have h := prune_loop_dry deleteOk cn (select_for_deletion vs c w) 0
    have hl := prune_loop_dry_lines_zero deleteOk cn (select_for_deletion vs c w)
    simp [container_step, h.1, h.2.1, hl]
